import Mathlib

/-!
Verification development for the GP emulator core in
`4chmodel/Python/gpes_gsa/gpe.py` (class `GPEmul` and `GPEmulUtils`).

Numbers are modelled as rationals (`ℚ`); numeric quantities produced by the
optimization backend (per-epoch losses, metric scores, posterior draws,
random lengthscale draws) are supplied as oracle streams, since they come
from external numerical libraries.  External collaborators that are part of
the repository but not under `src/` (`utils.earlystopping.EarlyStopping`,
`utils.preprocessing.Scaler`, `utils.metrics`) are modelled from the spec,
as marked on each definition.
-/

/-- Hyperparameter snapshot of the `ExactGPModel`: linear-mean weights and
bias, kernel outputscale, and per-feature raw lengthscales (the contents of
`model.state_dict()` relevant to the spec). -/
structure ModelState where
  weights : List ℚ
  bias : ℚ
  outputscale : ℚ
  rawLengthscales : List ℚ
  deriving Repr, DecidableEq, Inhabited

/-- Optimizer state: `torch.optim.Adam` bookkeeping (step count of the
moment buffers).  A fresh optimizer, as created by
`torch.optim.Adam(self.model.parameters(), lr=...)` in `train_once`, has
taken no steps. -/
structure OptimState where
  steps : Nat
  deriving Repr, DecidableEq, Inhabited

/-- The fresh optimizer state created at the start of every restart. -/
def OptimState.fresh : OptimState := ⟨0⟩

/-- Modelled from the spec: state of the external `EarlyStopping`
collaborator (`utils/earlystopping.py`, not under `src/`): best loss seen so
far, count of consecutive non-improving calls, the persisted checkpoint
(model snapshot written to `savepath` on every new best), and the
`early_stop` flag. -/
structure ESState where
  bestLoss : Option ℚ
  counter : Nat
  checkpoint : Option ModelState
  earlyStop : Bool
  deriving Repr, DecidableEq, Inhabited

/-- The state of a freshly constructed `EarlyStopping(patience, savepath)`. -/
def ESState.init : ESState := ⟨none, 0, none, false⟩

/-- Modelled from the spec: one call `early_stopping(loss, model)`.  On an
improving loss it persists the model snapshot and resets the non-improvement
counter; otherwise it increments the counter and raises `early_stop` once
`patience` consecutive non-improving calls have occurred. -/
def esCall (patience : Nat) (s : ESState) (loss : ℚ) (model : ModelState) : ESState :=
  match s.bestLoss with
  | none => ⟨some loss, 0, some model, s.earlyStop⟩
  | some b =>
    if loss < b then ⟨some loss, 0, some model, s.earlyStop⟩
    else ⟨some b, s.counter + 1, s.checkpoint, s.earlyStop || decide (patience ≤ s.counter + 1)⟩

/-- Folding a sequence of monitored (loss, model) pairs through the
`EarlyStopping` collaborator. -/
def esFold (patience : Nat) (s : ESState) : List (ℚ × ModelState) → ESState
  | [] => s
  | (l, m) :: rest => esFold patience (esCall patience s l m) rest

/-- Index of the first occurrence of the minimum of a list: the semantics of
`np.argmin` as used on the loss lists (`np.argmin` returns the first
occurrence in case of ties). -/
def npArgmin : List ℚ → Nat
  | [] => 0
  | [_] => 0
  | x :: y :: xs =>
    let j := npArgmin (y :: xs)
    if x ≤ (y :: xs).getD j 0 then 0 else j + 1

/-- Result of one successful `train_once` call: the per-epoch loss and
metric lists, the checkpoint persisted by `EarlyStopping` (read back by
`torch.load(self.savepath)` as `self.best_model`), and `self.idx_best`. -/
structure OnceResult where
  trainLossList : List ℚ
  valLossList : List ℚ
  metricScoreList : List ℚ
  bestModel : Option ModelState
  idxBest : Nat
  deriving Repr, DecidableEq, Inhabited

/-- The values `train` appends for one successful restart: best train loss
`train_loss_list[idx_best]`, the restart's best snapshot, and (when
validation is used) `val_loss_list[idx_best]` and
`metric_score_list[idx_best]`. -/
structure RestartRecord where
  bestTrainLoss : ℚ
  bestModel : Option ModelState
  bestValLoss : ℚ
  bestMetric : ℚ
  deriving Repr, DecidableEq, Inhabited

/-- Extraction of a restart's record from a `train_once` outcome
(lines 99-103 of `gpe.py`). -/
def recordOf (r : OnceResult) : RestartRecord :=
  { bestTrainLoss := r.trainLossList.getD r.idxBest 0
    bestModel := r.bestModel
    bestValLoss := r.valLossList.getD r.idxBest 0
    bestMetric := r.metricScoreList.getD r.idxBest 0 }

/-- The `while i < n_restarts` loop of `GPEmul.train` (lines 89-103): each
attempt at `train_once` either raises `RuntimeError` (`Except.error`), in
which case nothing is recorded and the same restart index is retried, or
succeeds, in which case the restart counter `i` is incremented and the
restart's record is appended.  The loop consumes a finite list of attempt
outcomes; `none` means the supplied attempts were exhausted before
`n_restarts` successes (the unbounded-retry case). -/
def restartLoop : Nat → List (Except Unit OnceResult) → Option (List RestartRecord)
  | 0, _ => some []
  | _ + 1, [] => none
  | n + 1, (Except.error _) :: rest => restartLoop (n + 1) rest
  | n + 1, (Except.ok r) :: rest =>
    (restartLoop n rest).map (fun recs => recordOf r :: recs)

/-- The successful `train_once` outcomes among a list of attempts, in
order. -/
def successes : List (Except Unit OnceResult) → List OnceResult
  | [] => []
  | (Except.error _) :: rest => successes rest
  | (Except.ok r) :: rest => r :: successes rest

/-- Outcome of `GPEmul.train`: the snapshot loaded as the live model state
(`self.model.load_state_dict(self.best_model)`) and, when validation was
used, the retained `self.metric_score`. -/
structure TrainOutcome where
  liveModel : Option ModelState
  metricScore : Option ℚ
  deriving Repr, DecidableEq, Inhabited

/-- Final model selection of `GPEmul.train` (lines 105-112): with
validation, `idx_min = np.argmin(val_loss_list)` and the metric score at
`idx_min` is retained; otherwise `idx_min = np.argmin(train_loss_list)`.
The snapshot at `idx_min` becomes the live model state. -/
def trainSelect (withVal : Bool) (recs : List RestartRecord) : TrainOutcome :=
  if withVal then
    let idxMin := npArgmin (recs.map (·.bestValLoss))
    { liveModel := (recs.getD idxMin default).bestModel
      metricScore := some ((recs.getD idxMin default).bestMetric) }
  else
    let idxMin := npArgmin (recs.map (·.bestTrainLoss))
    { liveModel := (recs.getD idxMin default).bestModel
      metricScore := none }

/-- `GPEmul.train`: run the restart loop on the given attempt outcomes,
then select the final model across the recorded restarts. -/
def trainRun (withVal : Bool) (nRestarts : Nat)
    (attempts : List (Except Unit OnceResult)) : Option TrainOutcome :=
  (restartLoop nRestarts attempts).map (trainSelect withVal)

/-- The affine map applied to each uniform draw `u` of `torch.rand` in
`train_once` (line 120 of `gpe.py`): `(lsc_sup - lsc_inf) * u + lsc_inf`,
with `lsc_inf = log 0.1` and `lsc_sup = log 10`. -/
def rawLengthscaleSample {α : Type} [Ring α] (lscInf lscSup u : α) : α :=
  (lscSup - lscInf) * u + lscInf

/-- RESET phase of `train_once` (lines 115-125): load the frozen
`init_state` captured at construction, overwrite the raw lengthscales with
fresh independent draws `u` mapped through the affine log-range map, and
create a fresh Adam optimizer.  `lscInf`/`lscSup` stand for the constants
`np.log(0.1)` / `np.log(10.0)` (irrational, hence kept symbolic over ℚ). -/
def resetForRestart (initState : ModelState) (lscInf lscSup : ℚ) (u : List ℚ) :
    ModelState × OptimState :=
  ({ initState with rawLengthscales := u.map (rawLengthscaleSample lscInf lscSup) },
   OptimState.fresh)

/-- The loss monitored by `EarlyStopping` each epoch (lines 153-156):
the validation loss when validation data is present, else the training
loss. -/
def monitoredLoss (withVal : Bool) (tl vl : Nat → ℚ) (e : Nat) : ℚ :=
  if withVal then vl e else tl e

/-- Output of the per-restart epoch loop: the accumulated loss/metric
lists, the final `EarlyStopping` state, and the number of epochs that
ran. -/
structure LoopOut where
  trainLossList : List ℚ
  valLossList : List ℚ
  metricScoreList : List ℚ
  es : ESState
  epochsRun : Nat
  deriving Repr, DecidableEq, Inhabited

/-- The epoch loop of `train_once` (lines 135-159), starting at epoch `e`
with `rem` epochs remaining and `EarlyStopping` state `s`.  Per epoch: the
training loss (oracle `tl`, one optimizer step) and, with validation, the
validation loss `vl` and metric score `ms` are computed and appended; the
monitored loss is fed to `EarlyStopping` with the current model snapshot
(oracle `ma`); the loop breaks when `early_stop` is raised. -/
def epochLoopAux (patience : Nat) (withVal : Bool) (tl vl ms : Nat → ℚ)
    (ma : Nat → ModelState) : Nat → Nat → ESState → LoopOut
  | _, 0, s => ⟨[], [], [], s, 0⟩
  | e, rem + 1, s =>
    let t := tl e
    let s' := esCall patience s (if withVal then vl e else t) (ma e)
    if s'.earlyStop then
      ⟨[t], if withVal then [vl e] else [], if withVal then [ms e] else [], s', 1⟩
    else
      let r := epochLoopAux patience withVal tl vl ms ma (e + 1) rem s'
      ⟨t :: r.trainLossList,
       (if withVal then [vl e] else []) ++ r.valLossList,
       (if withVal then [ms e] else []) ++ r.metricScoreList,
       r.es, r.epochsRun + 1⟩

/-- The full epoch loop `for epoch in range(max_epochs)` of `train_once`,
from a freshly constructed `EarlyStopping(patience, savepath)`. -/
def epochLoop (patience maxEpochs : Nat) (withVal : Bool) (tl vl ms : Nat → ℚ)
    (ma : Nat → ModelState) : LoopOut :=
  epochLoopAux patience withVal tl vl ms ma 0 maxEpochs ESState.init

/-- Tail of `train_once` (lines 161-165): the best model is whatever
`EarlyStopping` persisted (`torch.load(self.savepath)`), and `idx_best` is
the argmin of the monitored loss list. -/
def trainOnceOutcome (patience maxEpochs : Nat) (withVal : Bool) (tl vl ms : Nat → ℚ)
    (ma : Nat → ModelState) : OnceResult :=
  let r := epochLoop patience maxEpochs withVal tl vl ms ma
  { trainLossList := r.trainLossList
    valLossList := r.valLossList
    metricScoreList := r.metricScoreList
    bestModel := r.es.checkpoint
    idxBest := if withVal then npArgmin r.valLossList else npArgmin r.trainLossList }

/-- Modelled from the spec: fitted state of the external `Scaler`
(`utils/preprocessing.py`, not under `src/`) on a multi-feature array:
per-feature center and scale parameters, fitted once and frozen.  The spec
fixes only that the parameters are a deterministic per-feature function of
the fitted data; the spread parameter is taken as the per-feature variance
so the development stays executable over ℚ. -/
structure ScalerN where
  means : List ℚ
  scales : List ℚ
  deriving Repr, DecidableEq, Inhabited

/-- Modelled from the spec: fitted state of the external `Scaler` on a
single-column target array. -/
structure Scaler1 where
  mean : ℚ
  scale : ℚ
  deriving Repr, DecidableEq, Inhabited

/-- Mean of a list of rationals (`np.mean`). -/
def listMean (l : List ℚ) : ℚ := l.sum / l.length

/-- Per-feature variance, the representative spread parameter of the
modelled `Scaler`. -/
def listVar (l : List ℚ) : ℚ := listMean (l.map (fun x => (x - listMean l) ^ 2))

/-- Column `j` of a row-major array. -/
def column (data : List (List ℚ)) (j : Nat) : List ℚ := data.map (fun row => row.getD j 0)

/-- Number of input features: `X.shape[1]` of the row-major array. -/
def nFeaturesOf (data : List (List ℚ)) : Nat := (data.headD []).length

/-- Modelled from the spec: `Scaler().fit(X)` on a multi-feature array
computes frozen per-feature parameters from the fitted data, exactly
once. -/
def scalerFitN (data : List (List ℚ)) : ScalerN :=
  { means := (List.range (nFeaturesOf data)).map (fun j => listMean (column data j))
    scales := (List.range (nFeaturesOf data)).map (fun j => listVar (column data j)) }

/-- Modelled from the spec: `Scaler().fit(y.reshape(-1, 1))` on the target
column. -/
def scalerFit1 (data : List ℚ) : Scaler1 :=
  { mean := listMean data, scale := listVar data }

/-- Modelled from the spec: the forward transform of the fitted `Scaler`
on a multi-feature array (per-feature centering and scaling, row-wise). -/
def ScalerN.transform (s : ScalerN) (data : List (List ℚ)) : List (List ℚ) :=
  data.map (fun row =>
    (List.range row.length).map (fun j => (row.getD j 0 - s.means.getD j 0) / s.scales.getD j 1))

/-- Modelled from the spec: the forward transform on the target column. -/
def Scaler1.transform (s : Scaler1) (data : List ℚ) : List ℚ :=
  data.map (fun y => (y - s.mean) / s.scale)

/-- Modelled from the spec: `inverse_transform` of the target `Scaler` —
the plain inverse of the forward transform, applied to realized values. -/
def Scaler1.inverseTransform (s : Scaler1) (data : List ℚ) : List ℚ :=
  data.map (fun y => y * s.scale + s.mean)

/-- Modelled from the spec: `inverse_transform_predictions` of the target
`Scaler` — the joint variance-aware inverse for a (mean, std) pair of
summary statistics: the mean is inverted like a value, the std is rescaled
without recentering. -/
def Scaler1.inverseTransformPredictions (s : Scaler1) (mean std : List ℚ) :
    List ℚ × List ℚ :=
  (mean.map (fun y => y * s.scale + s.mean), std.map (fun y => y * s.scale))

/-- State of the `gpytorch.likelihoods.GaussianLikelihood` observation
model: the noise variance, the lower bound of its registered constraint,
and whether its raw parameter participates in gradient updates. -/
structure Likelihood where
  noise : ℚ
  noiseFloor : ℚ
  noiseRequiresGrad : Bool
  deriving Repr, DecidableEq, Inhabited

/-- A freshly constructed `GaussianLikelihood`: learnable noise with the
library's default constraint floor of `1e-4` and a default positive
initial value. -/
def defaultLikelihood : Likelihood :=
  { noise := 693 / 1000, noiseFloor := 1 / 10000, noiseRequiresGrad := true }

/-- Likelihood construction in `GPEmul.__init__` (lines 46-50): starting
from the default `GaussianLikelihood`, when `learn_noise` is false the
constraint is replaced by `GreaterThan(1e-6)`, the noise is fixed to
`1e-4`, and the raw noise parameter is excluded from gradients. -/
def mkLikelihood (learnNoise : Bool) : Likelihood :=
  if learnNoise then defaultLikelihood
  else { noise := 1 / 10000, noiseFloor := 1 / 1000000, noiseRequiresGrad := false }

/-- One gradient-based update of the likelihood's noise parameter by an
optimizer step.  `torch.optim.Adam` updates a parameter only when it
requires gradients (a parameter with `requires_grad == False` accumulates
no gradient and is left unchanged); `upd` is the otherwise-arbitrary
numerical update the optimizer would apply. -/
def likStep (upd : ℚ → ℚ) (l : Likelihood) : Likelihood :=
  if l.noiseRequiresGrad then { l with noise := upd l.noise } else l

/-- The `GPEmul` object as built by `__init__`: configuration flags, the
fitted scalers (meaningful only when `scale_data` is true, matching the
conditional construction in the code), the (possibly scaled) tensorized
training data, the bookkeeping fields, the likelihood, the live model
state, and the frozen `init_state` deep copy. -/
structure GPEmul where
  scaleData : Bool
  learnNoise : Bool
  scx : ScalerN
  scy : Scaler1
  Xtrain : List (List ℚ)
  ytrain : List ℚ
  dataMean : ℚ
  nSamples : Nat
  nInFeatures : Nat
  likelihood : Likelihood
  model : ModelState
  initState : ModelState
  deriving Repr, DecidableEq, Inhabited

/-- `GPEmul.__init__(X_train, y_train, device, learn_noise, scale_data)`
(lines 26-59).  When scaling is enabled the scalers are fitted on the
training data and the stored tensors are the scaled data; `data_mean` is
`0.0` if scaled else `np.mean(y_train)`; the model is initialized with zero
mean weights, bias `data_mean`, unit outputscale (raw lengthscales keep the
library default of zero), and that state is deep-copied once into
`init_state`. -/
def mkGPEmul (X : List (List ℚ)) (y : List ℚ) (learnNoise scaleData : Bool) : GPEmul :=
  let scx := scalerFitN X
  let scy := scalerFit1 y
  let nIn := nFeaturesOf X
  let dataMean := if scaleData then 0 else listMean y
  let model0 : ModelState :=
    { weights := List.replicate nIn 0
      bias := dataMean
      outputscale := 1
      rawLengthscales := List.replicate nIn 0 }
  { scaleData := scaleData
    learnNoise := learnNoise
    scx := scx
    scy := scy
    Xtrain := if scaleData then scx.transform X else X
    ytrain := if scaleData then scy.transform y else y
    dataMean := dataMean
    nSamples := X.length
    nInFeatures := nIn
    likelihood := mkLikelihood learnNoise
    model := model0
    initState := model0 }

/-- A multivariate-normal predictive distribution as returned by
`self.likelihood(self.model(X_new))`: mean and variance vectors over the
query points. -/
structure GPDist where
  mean : List ℚ
  variance : List ℚ
  deriving Repr, DecidableEq, Inhabited

/-- `GPEmul.predict(X_new)` (lines 209-225).  `gp` is the oracle for the
predictive distribution under the likelihood in evaluation mode, and `sqrt`
the elementwise `np.sqrt`.  The frozen input transform is applied exactly
when scaling is enabled; the mean and the square root of the variance are
extracted; the joint variance-aware inverse transform is applied exactly
when scaling is enabled. -/
def predictGP (em : GPEmul) (gp : List (List ℚ) → GPDist) (sqrt : ℚ → ℚ)
    (Xnew : List (List ℚ)) : List ℚ × List ℚ :=
  let X' := if em.scaleData then em.scx.transform Xnew else Xnew
  let d := gp X'
  let yMean := d.mean
  let yStd := d.variance.map sqrt
  if em.scaleData then em.scy.inverseTransformPredictions yMean yStd
  else (yMean, yStd)

/-- `predictions.sample(sample_shape=torch.Size([n_draws]))`: `n_draws`
independent realized vectors, each of the dimension of the distribution;
`noise i j` is the oracle for the stochastic part of draw `i` at coordinate
`j`. -/
def mvnSample (d : GPDist) (noise : Nat → Nat → ℚ) (nDraws : Nat) : List (List ℚ) :=
  (List.range nDraws).map (fun i =>
    (List.range d.mean.length).map (fun j => d.mean.getD j 0 + noise i j))

/-- `GPEmul.sample(X_new, n_draws)` (lines 228-244).  Same scaling and
evaluation path as `predict`; `n_draws` posterior vectors are drawn, and
when scaling is enabled each drawn vector is independently inverse-scaled
with the plain `inverse_transform` of the target scaler. -/
def sampleGP (em : GPEmul) (gp : List (List ℚ) → GPDist) (noise : Nat → Nat → ℚ)
    (Xnew : List (List ℚ)) (nDraws : Nat) : List (List ℚ) :=
  let X' := if em.scaleData then em.scx.transform Xnew else Xnew
  let ySamples := mvnSample (gp X') noise nDraws
  if em.scaleData then ySamples.map (fun row => em.scy.inverseTransform row)
  else ySamples

/-- `GPEmulUtils.load_emulator` (lines 256-286).  The training arrays are
reloaded from files (`Xfile`, `yfile`), a fresh `GPEmul` is constructed
with `learn_noise=False, scale_data=True` — refitting the scalers on the
reloaded data — and the persisted snapshot is loaded as the live model
state.  With validation data, the retained metric score is recomputed from
one prediction pass (`metricFn` is the metric selected by name, an external
collaborator). -/
def loadEmulator (Xfile : List (List ℚ)) (yfile : List ℚ) (snapshot : ModelState)
    (withVal : Bool) (Xval : List (List ℚ)) (yval : List ℚ)
    (metricFn : List ℚ → List ℚ → ℚ) (gp : List (List ℚ) → GPDist)
    (sqrt : ℚ → ℚ) : GPEmul × Option ℚ :=
  let emul0 := mkGPEmul Xfile yfile false true
  let emul := { emul0 with model := snapshot }
  if withVal then
    let yPred := (predictGP emul gp sqrt Xval).1
    let yv := if emul.scaleData then emul.scy.transform yval else yval
    let yp := if emul.scaleData then emul.scy.transform yPred else yPred
    (emul, some (metricFn yv yp))
  else (emul, none)

/-- The loss series the cross-restart selection minimizes: validation
losses when validation data was supplied, else training losses. -/
def chosenLosses (withVal : Bool) (recs : List RestartRecord) : List ℚ :=
  if withVal then recs.map (·.bestValLoss) else recs.map (·.bestTrainLoss)

/-- The sequence of (monitored loss, model snapshot) pairs fed to
`EarlyStopping` over `k` epochs starting at epoch `e`. -/
def monitoredTrace (withVal : Bool) (tl vl : Nat → ℚ) (ma : Nat → ModelState)
    (e k : Nat) : List (ℚ × ModelState) :=
  (List.range k).map (fun i => (monitoredLoss withVal tl vl (e + i), ma (e + i)))

/-- Concrete model snapshot used to exercise the theorems below on closed
inputs. -/
def sampleModel : ModelState := ⟨[1], 2, 3, [4]⟩

/-- Concrete `train_once` outcome used to exercise the theorems below. -/
def sampleOnce1 : OnceResult := ⟨[3, 2], [5, 4], [1/2, 3/4], some sampleModel, 1⟩

/-- Second concrete `train_once` outcome used to exercise the theorems
below. -/
def sampleOnce2 : OnceResult := ⟨[1], [6], [1/4], none, 0⟩

/-- Concrete training inputs used to exercise the theorems below. -/
def sampleX : List (List ℚ) := [[1], [2]]

/-- Concrete training targets used to exercise the theorems below. -/
def sampleY : List ℚ := [1, 2]

/-- Concrete predictive-distribution oracle (mean 0, unit variance at each
query point) used to exercise the theorems below. -/
def sampleGPOracle : List (List ℚ) → GPDist :=
  fun X => ⟨X.map (fun _ => 0), X.map (fun _ => 1)⟩

lemma npArgmin_lt_length : ∀ (l : List ℚ), l ≠ [] → npArgmin l < l.length := by
  intro l
  induction l with
  | nil => simp
  | cons x xs ih =>
    cases xs with
    | nil => intro _; simp [npArgmin]
    | cons y ys =>
      intro _
      simp only [npArgmin]
      split
      · simp
      · have h := ih (by simp)
        simpa [Nat.succ_lt_succ_iff] using h

lemma npArgmin_le : ∀ (l : List ℚ) (j : Nat), j < l.length →
    l.getD (npArgmin l) 0 ≤ l.getD j 0 := by
  intro l
  induction l with
  | nil => intro j hj; simp at hj
  | cons x xs ih =>
    cases xs with
    | nil =>
      intro j hj
      simp only [List.length_singleton, Nat.lt_one_iff] at hj
      subst hj
      simp [npArgmin]
    | cons y ys =>
      intro j hj
      simp only [npArgmin]
      split
      · rename_i hx
        cases j with
        | zero => simp
        | succ k =>
          have hk : k < (y :: ys).length := by
            simpa [Nat.succ_lt_succ_iff] using hj
          have := ih k hk
          calc (x :: y :: ys).getD 0 0 = x := rfl
            _ ≤ (y :: ys).getD (npArgmin (y :: ys)) 0 := hx
            _ ≤ (y :: ys).getD k 0 := this
            _ = (x :: y :: ys).getD (k + 1) 0 := rfl
      · rename_i hx
        push_neg at hx
        cases j with
        | zero =>
          show (y :: ys).getD (npArgmin (y :: ys)) 0 ≤ x
          exact le_of_lt hx
        | succ k =>
          have hk : k < (y :: ys).length := by
            simpa [Nat.succ_lt_succ_iff] using hj
          exact ih k hk

lemma npArgmin_first : ∀ (l : List ℚ) (j : Nat), j < npArgmin l →
    l.getD (npArgmin l) 0 < l.getD j 0 := by
  intro l
  induction l with
  | nil => intro j hj; simp [npArgmin] at hj
  | cons x xs ih =>
    cases xs with
    | nil => intro j hj; simp [npArgmin] at hj
    | cons y ys =>
      intro j hj
      simp only [npArgmin] at hj ⊢
      split
      · rename_i hx
        rw [if_pos hx] at hj
        exact absurd hj (Nat.not_lt_zero j)
      · rename_i hx
        push_neg at hx
        rw [if_neg (not_le.mpr hx)] at hj
        cases j with
        | zero => exact hx
        | succ k =>
          have hk : k < npArgmin (y :: ys) := Nat.lt_of_succ_lt_succ hj
          exact ih k hk

lemma restartLoop_sound : ∀ (attempts : List (Except Unit OnceResult))
    (n : Nat) (recs : List RestartRecord), restartLoop n attempts = some recs →
    recs.length = n ∧ recs = ((successes attempts).take n).map recordOf := by
  intro attempts
  induction attempts with
  | nil =>
    intro n recs h
    cases n with
    | zero =>
      simp only [restartLoop, Option.some.injEq] at h
      subst h
      simp [successes]
    | succ m => simp [restartLoop] at h
  | cons a rest ih =>
    intro n recs h
    cases n with
    | zero =>
      simp only [restartLoop, Option.some.injEq] at h
      subst h
      simp
    | succ m =>
      cases a with
      | error e =>
        have h2 := ih (m + 1) recs h
        simpa [successes] using h2
      | ok r =>
        simp only [restartLoop, Option.map_eq_some'] at h
        obtain ⟨recs0, hrecs0, hrecs⟩ := h
        obtain ⟨hlen, heq⟩ := ih m recs0 hrecs0
        subst hrecs
        constructor
        · simp [hlen]
        · simp [successes, heq]

lemma esCall_bestLoss_isSome (p : Nat) (s : ESState) (loss : ℚ) (m : ModelState) :
    (esCall p s loss m).bestLoss.isSome := by
  obtain ⟨bl, cnt, cp, es⟩ := s
  cases bl with
  | none => simp [esCall]
  | some b =>
    by_cases h : loss < b <;> simp [esCall, h]

lemma esFold_step_bound (p : Nat) (s : ESState) (loss : ℚ) (m : ModelState) (c : Nat)
    (hsome : s.bestLoss.isSome) (hc : s.counter ≤ c) (hes : s.earlyStop = true → p ≤ c) :
    (esCall p s loss m).counter ≤ c + 1 ∧
    ((esCall p s loss m).earlyStop = true → p ≤ c + 1) := by
  obtain ⟨bl, cnt, cp, es⟩ := s
  cases bl with
  | none => simp at hsome
  | some b =>
    simp only [ESState.counter] at hc
    simp only [ESState.earlyStop] at hes
    by_cases h : loss < b
    · simp only [esCall, if_pos h]
      exact ⟨Nat.zero_le _, fun hh => Nat.le_succ_of_le (hes hh)⟩
    · simp only [esCall, if_neg h]
      refine ⟨Nat.succ_le_succ hc, fun hh => ?_⟩
      simp only [Bool.or_eq_true, decide_eq_true_eq] at hh
      rcases hh with hh | hh
      · exact Nat.le_succ_of_le (hes hh)
      · exact le_trans hh (Nat.succ_le_succ hc)

lemma esFold_bound (p : Nat) : ∀ (ls : List (ℚ × ModelState)) (s : ESState) (c : Nat),
    s.bestLoss.isSome → s.counter ≤ c → (s.earlyStop = true → p ≤ c) →
    (esFold p s ls).counter ≤ c + ls.length ∧
    ((esFold p s ls).earlyStop = true → p ≤ c + ls.length) := by
  intro ls
  induction ls with
  | nil => intro s c hsome hc hes; simpa [esFold] using ⟨hc, hes⟩
  | cons lm rest ih =>
    intro s c hsome hc hes
    obtain ⟨loss, m⟩ := lm
    have hstep := esFold_step_bound p s loss m c hsome hc hes
    have hsome2 := esCall_bestLoss_isSome p s loss m
    have := ih (esCall p s loss m) (c + 1) hsome2 hstep.1 hstep.2
    simpa [esFold, Nat.add_assoc, Nat.add_comm 1 rest.length] using this

lemma esFold_init_earlyStop (p : Nat) (ls : List (ℚ × ModelState)) :
    (esFold p ESState.init ls).earlyStop = true → p < ls.length := by
  cases ls with
  | nil => simp [esFold, ESState.init]
  | cons lm rest =>
    obtain ⟨loss, m⟩ := lm
    intro h
    have h1 : esCall p ESState.init loss m = ⟨some loss, 0, some m, false⟩ := by
      simp [esCall, ESState.init]
    have := esFold_bound p rest (esCall p ESState.init loss m) 0
      (by rw [h1]; simp) (by rw [h1]) (by rw [h1]; simp)
    have h2 := this.2 (by simpa [esFold] using h)
    simpa [Nat.lt_succ_iff] using h2

lemma range_map_shift {α : Type} (f : Nat → α) (e k : Nat) :
    (List.range (k + 1)).map (fun i => f (e + i)) =
      f e :: (List.range k).map (fun i => f (e + 1 + i)) := by
  rw [List.range_succ_eq_map]
  simp only [List.map_cons, List.map_map, Nat.add_zero]
  congr 1
  apply List.map_congr_left
  intro i _
  simp [Function.comp]
  congr 1
  omega

lemma monitoredTrace_succ (withVal : Bool) (tl vl : Nat → ℚ) (ma : Nat → ModelState)
    (e k : Nat) :
    monitoredTrace withVal tl vl ma e (k + 1) =
      (monitoredLoss withVal tl vl e, ma e) :: monitoredTrace withVal tl vl ma (e + 1) k := by
  unfold monitoredTrace
  exact range_map_shift (fun n => (monitoredLoss withVal tl vl n, ma n)) e k

lemma monitoredTrace_zero (withVal : Bool) (tl vl : Nat → ℚ) (ma : Nat → ModelState)
    (e : Nat) : monitoredTrace withVal tl vl ma e 0 = [] := by
  simp [monitoredTrace]

lemma epochLoopAux_spec (p : Nat) (wv : Bool) (tl vl ms : Nat → ℚ) (ma : Nat → ModelState) :
    ∀ (rem e : Nat) (s : ESState) (r : LoopOut),
    epochLoopAux p wv tl vl ms ma e rem s = r →
    r.epochsRun ≤ rem ∧
    r.trainLossList = (List.range r.epochsRun).map (fun i => tl (e + i)) ∧
    r.valLossList = (if wv then (List.range r.epochsRun).map (fun i => vl (e + i)) else []) ∧
    r.metricScoreList = (if wv then (List.range r.epochsRun).map (fun i => ms (e + i)) else []) ∧
    r.es = esFold p s (monitoredTrace wv tl vl ma e r.epochsRun) ∧
    (r.epochsRun < rem → r.es.earlyStop = true) ∧
    (∀ k, 0 < k → k < r.epochsRun →
      (esFold p s (monitoredTrace wv tl vl ma e k)).earlyStop = false) := by
  intro rem
  induction rem with
  | zero =>
    intro e s r hr
    simp only [epochLoopAux] at hr
    subst hr
    refine ⟨Nat.le_refl 0, by simp, by cases wv <;> simp, by cases wv <;> simp, ?_, ?_, ?_⟩
    · simp [monitoredTrace_zero, esFold]
    · intro h; have h0 : (0 : Nat) < 0 := h; omega
    · intro k hk hk2; have h0 : k < 0 := hk2; omega
  | succ rem ih =>
    intro e s r hr
    cases wv with
    | false =>
      simp only [epochLoopAux, Bool.false_eq_true, if_false, List.nil_append] at hr
      split at hr
      · rename_i hstop
        subst hr
        dsimp only
        refine ⟨Nat.le_add_left 1 rem, by simp [List.range_succ], by simp, by simp, ?_, ?_, ?_⟩
        · rw [monitoredTrace_succ, monitoredTrace_zero]
          simp only [esFold, monitoredLoss, Bool.false_eq_true, if_false]
        · intro _; exact hstop
        · intro k hk hk2; have h0 : k < 1 := hk2; omega
      · rename_i hstop
        obtain ⟨h1, h2, h3, h4, h5, h6, h7⟩ :=
          ih (e + 1) (esCall p s (tl e) (ma e))
            (epochLoopAux p false tl vl ms ma (e + 1) rem (esCall p s (tl e) (ma e))) rfl
        subst hr
        dsimp only
        simp only [Bool.false_eq_true, if_false] at h3 h4
        refine ⟨Nat.succ_le_succ h1, ?_, by simp [h3], by simp [h4], ?_, ?_, ?_⟩
        · rw [range_map_shift, h2]
        · rw [monitoredTrace_succ]
          simp only [esFold, monitoredLoss, Bool.false_eq_true, if_false]
          exact h5
        · intro hlt; exact h6 (Nat.lt_of_succ_lt_succ hlt)
        · intro k hk hklt
          have hklt2 : k < (epochLoopAux p false tl vl ms ma (e + 1) rem
              (esCall p s (tl e) (ma e))).epochsRun + 1 := hklt
          cases k with
          | zero => omega
          | succ k2 =>
            rw [monitoredTrace_succ]
            simp only [esFold, monitoredLoss, Bool.false_eq_true, if_false]
            cases k2 with
            | zero =>
              rw [monitoredTrace_zero]
              simp only [esFold]
              simpa using hstop
            | succ k3 =>
              exact h7 (k3 + 1) (Nat.succ_pos k3) (Nat.lt_of_succ_lt_succ hklt2)
    | true =>
      simp only [epochLoopAux, if_true, List.singleton_append] at hr
      split at hr
      · rename_i hstop
        subst hr
        dsimp only
        refine ⟨Nat.le_add_left 1 rem, by simp [List.range_succ], by simp [List.range_succ],
          by simp [List.range_succ], ?_, ?_, ?_⟩
        · rw [monitoredTrace_succ, monitoredTrace_zero]
          simp only [esFold, monitoredLoss, if_true]
        · intro _; exact hstop
        · intro k hk hk2; have h0 : k < 1 := hk2; omega
      · rename_i hstop
        obtain ⟨h1, h2, h3, h4, h5, h6, h7⟩ :=
          ih (e + 1) (esCall p s (vl e) (ma e))
            (epochLoopAux p true tl vl ms ma (e + 1) rem (esCall p s (vl e) (ma e))) rfl
        subst hr
        dsimp only
        simp only [if_true] at h3 h4
        refine ⟨Nat.succ_le_succ h1, ?_, ?_, ?_, ?_, ?_, ?_⟩
        · rw [range_map_shift, h2]
        · simp only [if_true]
          rw [range_map_shift, h3]
        · simp only [if_true]
          rw [range_map_shift, h4]
        · rw [monitoredTrace_succ]
          simp only [esFold, monitoredLoss, if_true]
          exact h5
        · intro hlt; exact h6 (Nat.lt_of_succ_lt_succ hlt)
        · intro k hk hklt
          have hklt2 : k < (epochLoopAux p true tl vl ms ma (e + 1) rem
              (esCall p s (vl e) (ma e))).epochsRun + 1 := hklt
          cases k with
          | zero => omega
          | succ k2 =>
            rw [monitoredTrace_succ]
            simp only [esFold, monitoredLoss, if_true]
            cases k2 with
            | zero =>
              rw [monitoredTrace_zero]
              simp only [esFold]
              simpa using hstop
            | succ k3 =>
              exact h7 (k3 + 1) (Nat.succ_pos k3) (Nat.lt_of_succ_lt_succ hklt2)

/-- C1: for every completed training run, the final model is selected by
deterministic argmin over the per-restart best validation losses when
validation data was supplied, else over the per-restart best training
losses, with ties broken by the first-occurring restart index; the selected
snapshot is loaded as the live model state, and when validation was used
the metric score of the selected restart is retained as the reported
accuracy. -/
theorem C1_trainFinalSelection (withVal : Bool) (n : Nat)
    (attempts : List (Except Unit OnceResult)) (recs : List RestartRecord)
    (out : TrainOutcome) (hn : 0 < n)
    (hloop : restartLoop n attempts = some recs)
    (hrun : trainRun withVal n attempts = some out) :
    npArgmin (chosenLosses withVal recs) < recs.length ∧
    (∀ j, j < recs.length →
      (chosenLosses withVal recs).getD (npArgmin (chosenLosses withVal recs)) 0
        ≤ (chosenLosses withVal recs).getD j 0) ∧
    (∀ j, j < npArgmin (chosenLosses withVal recs) →
      (chosenLosses withVal recs).getD (npArgmin (chosenLosses withVal recs)) 0
        < (chosenLosses withVal recs).getD j 0) ∧
    out.liveModel = (recs.getD (npArgmin (chosenLosses withVal recs)) default).bestModel ∧
    out.metricScore = (if withVal then
      some ((recs.getD (npArgmin (chosenLosses withVal recs)) default).bestMetric)
      else none) := by
  have hlen := (restartLoop_sound attempts n recs hloop).1
  have hlenCL : (chosenLosses withVal recs).length = recs.length := by
    cases withVal <;> simp [chosenLosses]
  have hne : chosenLosses withVal recs ≠ [] := by
    intro h
    have : (chosenLosses withVal recs).length = 0 := by rw [h]; rfl
    rw [hlenCL, hlen] at this
    omega
  have hout : out = trainSelect withVal recs := by
    unfold trainRun at hrun
    rw [hloop] at hrun
    simpa using hrun.symm
  subst hout
  refine ⟨?_, ?_, ?_, ?_, ?_⟩
  · have h := npArgmin_lt_length (chosenLosses withVal recs) hne
    rwa [hlenCL] at h
  · intro j hj
    exact npArgmin_le _ j (by rw [hlenCL]; exact hj)
  · intro j hj
    exact npArgmin_first _ j hj
  · cases withVal <;> simp [trainSelect, chosenLosses]
  · cases withVal <;> simp [trainSelect, chosenLosses]

/-- Witness for C1 at a concrete run: two successful restarts with
validation, selection picks the first restart (validation losses 4 and
6). -/
theorem C1_trainFinalSelection_witness :
    (trainSelect true [recordOf sampleOnce1, recordOf sampleOnce2]).liveModel
      = (([recordOf sampleOnce1, recordOf sampleOnce2]).getD
          (npArgmin (chosenLosses true [recordOf sampleOnce1, recordOf sampleOnce2]))
          default).bestModel ∧
    (trainSelect true [recordOf sampleOnce1, recordOf sampleOnce2]).metricScore
      = some ((([recordOf sampleOnce1, recordOf sampleOnce2]).getD
          (npArgmin (chosenLosses true [recordOf sampleOnce1, recordOf sampleOnce2]))
          default).bestMetric) := by
  have h := C1_trainFinalSelection true 2
    [Except.error (), Except.ok sampleOnce1, Except.ok sampleOnce2]
    [recordOf sampleOnce1, recordOf sampleOnce2]
    (trainSelect true [recordOf sampleOnce1, recordOf sampleOnce2])
    (by decide) (by rfl) (by rfl)
  exact ⟨h.2.2.2.1, by simpa using h.2.2.2.2⟩

/-- C2: a `RuntimeError` during a restart's optimization aborts that
restart without incrementing the restart counter and without recording any
loss or snapshot, and the same restart index is retried; after `n_restarts`
successful restarts exactly `n_restarts` records (snapshots and loss
values) are considered for selection — they are exactly the first
`n_restarts` successful attempts, in order. -/
theorem C2_restartRetry :
    (∀ (n : Nat) (attempts : List (Except Unit OnceResult)) (recs : List RestartRecord),
      restartLoop n attempts = some recs →
      recs.length = n ∧ recs = ((successes attempts).take n).map recordOf) ∧
    (∀ (n : Nat) (rest : List (Except Unit OnceResult)) (err : Unit),
      restartLoop (n + 1) (Except.error err :: rest) = restartLoop (n + 1) rest) ∧
    (∀ (n : Nat) (r : OnceResult) (rest : List (Except Unit OnceResult)),
      restartLoop (n + 1) (Except.ok r :: rest)
        = (restartLoop n rest).map (fun recs => recordOf r :: recs)) := by
  refine ⟨fun n attempts recs h => restartLoop_sound attempts n recs h,
    fun n rest err => rfl, fun n r rest => rfl⟩

/-- Witness for C2 at a concrete run: one failed attempt followed by two
successes yields exactly the two successful records. -/
theorem C2_restartRetry_witness :
    ([recordOf sampleOnce1, recordOf sampleOnce2].length = 2 ∧
     [recordOf sampleOnce1, recordOf sampleOnce2]
       = ((successes [Except.error (), Except.ok sampleOnce1,
            Except.ok sampleOnce2]).take 2).map recordOf) :=
  C2_restartRetry.1 2 [Except.error (), Except.ok sampleOnce1, Except.ok sampleOnce2]
    [recordOf sampleOnce1, recordOf sampleOnce2] (by rfl)

lemma likStep_foldl_frozen : ∀ (fs : List (ℚ → ℚ)) (l : Likelihood),
    l.noiseRequiresGrad = false → fs.foldl (fun l f => likStep f l) l = l := by
  intro fs
  induction fs with
  | nil => intro l h; rfl
  | cons f rest ih =>
    intro l h
    have hstep : likStep f l = l := by simp [likStep, h]
    simp only [List.foldl_cons, hstep]
    exact ih l h

/-- C3: at the start of every restart the hyperparameters are reset to the
frozen initial state (weights, bias, outputscale preserved from
`init_state`), a fresh optimizer is created, and each per-feature raw
lengthscale is independently re-drawn through the affine map of a uniform
draw; with the log-range endpoints `log 0.1` and `log 10`, the resulting
lengthscale lies in `[0.1, 10]` and its logarithm is the affine image of
the uniform draw between `log 0.1` and `log 10` (a log-uniform
distribution). -/
theorem C3_resetRandomization (init : ModelState) (lscInf lscSup : ℚ) (u : List ℚ) :
    (resetForRestart init lscInf lscSup u).1.weights = init.weights ∧
    (resetForRestart init lscInf lscSup u).1.bias = init.bias ∧
    (resetForRestart init lscInf lscSup u).1.outputscale = init.outputscale ∧
    (resetForRestart init lscInf lscSup u).2 = OptimState.fresh ∧
    (resetForRestart init lscInf lscSup u).1.rawLengthscales
      = u.map (rawLengthscaleSample lscInf lscSup) ∧
    rawLengthscaleSample (Real.log (1/10)) (Real.log 10) (0 : ℝ) = Real.log (1/10) ∧
    rawLengthscaleSample (Real.log (1/10)) (Real.log 10) (1 : ℝ) = Real.log 10 ∧
    StrictMono (fun v : ℝ => rawLengthscaleSample (Real.log (1/10)) (Real.log 10) v) ∧
    (∀ v : ℝ, 0 ≤ v → v ≤ 1 →
      Real.exp (rawLengthscaleSample (Real.log (1/10)) (Real.log 10) v)
        ∈ Set.Icc (1/10 : ℝ) 10 ∧
      Real.log (Real.exp (rawLengthscaleSample (Real.log (1/10)) (Real.log 10) v))
        = rawLengthscaleSample (Real.log (1/10)) (Real.log 10) v) := by
  have h10 : (0 : ℝ) < Real.log 10 := Real.log_pos (by norm_num)
  have hinv : Real.log ((1 : ℝ)/10) = -Real.log 10 := by
    rw [one_div, Real.log_inv]
  have hslope : (0 : ℝ) < Real.log 10 - Real.log (1/10) := by
    rw [hinv]; linarith
  refine ⟨rfl, rfl, rfl, rfl, rfl, ?_, ?_, ?_, ?_⟩
  · simp [rawLengthscaleSample]
  · simp [rawLengthscaleSample]
  · intro a b hab
    simp only [rawLengthscaleSample]
    have := mul_lt_mul_of_pos_left hab hslope
    linarith
  · intro v hv0 hv1
    have hlb : Real.log (1/10) ≤ rawLengthscaleSample (Real.log (1/10)) (Real.log 10) v := by
      simp only [rawLengthscaleSample]
      nlinarith
    have hub : rawLengthscaleSample (Real.log (1/10)) (Real.log 10) v ≤ Real.log 10 := by
      simp only [rawLengthscaleSample]
      nlinarith
    constructor
    · constructor
      · calc (1/10 : ℝ) = Real.exp (Real.log (1/10)) := (Real.exp_log (by norm_num)).symm
          _ ≤ _ := Real.exp_le_exp.mpr hlb
      · calc Real.exp (rawLengthscaleSample (Real.log (1/10)) (Real.log 10) v)
            ≤ Real.exp (Real.log 10) := Real.exp_le_exp.mpr hub
          _ = 10 := Real.exp_log (by norm_num)
    · exact Real.log_exp _

/-- Witness for C3 at concrete inputs: the reset keeps the snapshot fields,
maps the concrete draws through the affine map, and the lengthscale at draw
one half lies in `[0.1, 10]`. -/
theorem C3_resetRandomization_witness :
    (resetForRestart sampleModel (-2) 2 [0, 1]).1.rawLengthscales
      = [0, 1].map (rawLengthscaleSample (-2) 2) ∧
    Real.exp (rawLengthscaleSample (Real.log (1/10)) (Real.log 10) (1/2 : ℝ))
      ∈ Set.Icc (1/10 : ℝ) 10 := by
  have h := C3_resetRandomization sampleModel (-2) 2 [0, 1]
  exact ⟨h.2.2.2.2.1,
    (h.2.2.2.2.2.2.2.2 (1/2) (by norm_num) (by norm_num)).1⟩

/-- C4: in every epoch the loss fed to `EarlyStopping` is the validation
loss when validation data is present and the training loss otherwise (the
final collaborator state is the fold over the monitored trace); the loop
runs at most `max_epochs` epochs and stops short of `max_epochs` only when
the early-stop flag was raised, never earlier than the first raise of the
flag; with `patience = max_epochs` the loop always runs the full epoch
budget. -/
theorem C4_epochLoopEarlyStopping (p maxE : Nat) (wv : Bool) (tl vl ms : Nat → ℚ)
    (ma : Nat → ModelState) :
    (epochLoop p maxE wv tl vl ms ma).es
      = esFold p ESState.init
          (monitoredTrace wv tl vl ma 0 (epochLoop p maxE wv tl vl ms ma).epochsRun) ∧
    (epochLoop p maxE wv tl vl ms ma).trainLossList
      = (List.range (epochLoop p maxE wv tl vl ms ma).epochsRun).map tl ∧
    (epochLoop p maxE wv tl vl ms ma).epochsRun ≤ maxE ∧
    ((epochLoop p maxE wv tl vl ms ma).epochsRun < maxE →
      (epochLoop p maxE wv tl vl ms ma).es.earlyStop = true) ∧
    (∀ k, 0 < k → k < (epochLoop p maxE wv tl vl ms ma).epochsRun →
      (esFold p ESState.init (monitoredTrace wv tl vl ma 0 k)).earlyStop = false) ∧
    (p = maxE → (epochLoop p maxE wv tl vl ms ma).epochsRun = maxE) := by
  obtain ⟨h1, h2, h3, h4, h5, h6, h7⟩ :=
    epochLoopAux_spec p wv tl vl ms ma maxE 0 ESState.init
      (epochLoop p maxE wv tl vl ms ma) rfl
  refine ⟨h5, ?_, h1, h6, h7, ?_⟩
  · rw [h2]
    apply List.map_congr_left
    intro i _
    simp
  · intro hp
    by_contra hne
    have hlt : (epochLoop p maxE wv tl vl ms ma).epochsRun < maxE :=
      Nat.lt_of_le_of_ne h1 hne
    have hflag := h6 hlt
    rw [h5] at hflag
    have hbound := esFold_init_earlyStop p
      (monitoredTrace wv tl vl ma 0 (epochLoop p maxE wv tl vl ms ma).epochsRun) hflag
    have hlen : (monitoredTrace wv tl vl ma 0
        (epochLoop p maxE wv tl vl ms ma).epochsRun).length
        = (epochLoop p maxE wv tl vl ms ma).epochsRun := by
      simp [monitoredTrace]
    rw [hlen] at hbound
    omega

/-- Witness for C4 at a concrete run: with `patience = max_epochs = 3` the
loop runs all three epochs. -/
theorem C4_epochLoopEarlyStopping_witness :
    (epochLoop 3 3 false (fun _ => 0) (fun _ => 0) (fun _ => 0)
      (fun _ => sampleModel)).epochsRun = 3 :=
  (C4_epochLoopEarlyStopping 3 3 false (fun _ => 0) (fun _ => 0) (fun _ => 0)
    (fun _ => sampleModel)).2.2.2.2.2 rfl

/-- C5: `predict(X_new)` applies the frozen input transform to `X_new`
exactly when scaling is enabled, evaluates the predictive distribution
under the likelihood, extracts the mean and the square root of the
variance, applies the joint variance-aware inverse transform to the
(mean, std) pair exactly when scaling is enabled, and returns the
(mean, std) pair. -/
theorem C5_predictBehavior (em : GPEmul) (gp : List (List ℚ) → GPDist)
    (sq : ℚ → ℚ) (Xnew : List (List ℚ)) :
    predictGP em gp sq Xnew =
      (if em.scaleData then
        em.scy.inverseTransformPredictions (gp (em.scx.transform Xnew)).mean
          ((gp (em.scx.transform Xnew)).variance.map sq)
      else ((gp Xnew).mean, (gp Xnew).variance.map sq)) := by
  by_cases h : em.scaleData <;> simp [predictGP, h]

/-- C6: `sample(X, n_draws)` returns exactly `n_draws` sample vectors, each
of length equal to the number of rows of `X`, and when scaling is enabled
each drawn vector is inverse-scaled with the target scaler's plain
`inverse_transform`, not the joint mean/std prediction inverse. -/
theorem C6_sampleBehavior (em : GPEmul) (gp : List (List ℚ) → GPDist)
    (noise : Nat → Nat → ℚ) (Xnew : List (List ℚ)) (nDraws : Nat)
    (hgp : ∀ X, (gp X).mean.length = X.length) :
    (sampleGP em gp noise Xnew nDraws).length = nDraws ∧
    (∀ row ∈ sampleGP em gp noise Xnew nDraws, row.length = Xnew.length) ∧
    (em.scaleData = true →
      sampleGP em gp noise Xnew nDraws
        = (mvnSample (gp (em.scx.transform Xnew)) noise nDraws).map
            (fun row => em.scy.inverseTransform row)) ∧
    (em.scaleData = false →
      sampleGP em gp noise Xnew nDraws = mvnSample (gp Xnew) noise nDraws) := by
  refine ⟨?_, ?_, ?_, ?_⟩
  · by_cases h : em.scaleData <;> simp [sampleGP, h, mvnSample]
  · intro row hrow
    by_cases h : em.scaleData
    · simp only [sampleGP, if_pos h] at hrow
      rw [List.mem_map] at hrow
      obtain ⟨row0, hrow0, hrow_eq⟩ := hrow
      simp only [mvnSample, List.mem_map] at hrow0
      obtain ⟨i, _, hrow0_eq⟩ := hrow0
      subst hrow_eq
      rw [← hrow0_eq]
      simp [Scaler1.inverseTransform, hgp, ScalerN.transform]
    · simp only [sampleGP, if_neg h] at hrow
      simp only [mvnSample, List.mem_map] at hrow
      obtain ⟨i, _, hrow_eq⟩ := hrow
      rw [← hrow_eq]
      simp [hgp]
  · intro h; simp [sampleGP, h]
  · intro h; simp [sampleGP, h]

/-- Witness for C6 at a concrete call: two draws at three query points give
two sample vectors. -/
theorem C6_sampleBehavior_witness :
    (sampleGP (mkGPEmul sampleX sampleY false true) sampleGPOracle
      (fun _ _ => 0) [[3], [4], [5]] 2).length = 2 :=
  (C6_sampleBehavior (mkGPEmul sampleX sampleY false true) sampleGPOracle
    (fun _ _ => 0) [[3], [4], [5]] 2
    (by intro X; simp [sampleGPOracle])).1

/-- C7: with `learn_noise=False` the observation noise variance is set to
`1e-4`, constrained above the floor `1e-6`, and excluded from gradient
updates, so it is never changed by any sequence of optimizer steps. -/
theorem C7_fixedNoise :
    (∀ (X : List (List ℚ)) (y : List ℚ) (sd : Bool),
      (mkGPEmul X y false sd).likelihood = mkLikelihood false) ∧
    (mkLikelihood false).noise = 1 / 10000 ∧
    (mkLikelihood false).noiseFloor = 1 / 1000000 ∧
    (mkLikelihood false).noiseRequiresGrad = false ∧
    (∀ (upds : List (ℚ → ℚ)),
      (upds.foldl (fun l f => likStep f l) (mkLikelihood false)).noise = 1 / 10000) := by
  refine ⟨fun X y sd => rfl, rfl, rfl, rfl, fun upds => ?_⟩
  rw [likStep_foldl_frozen upds (mkLikelihood false) rfl]
  rfl

/-- C8: the frozen initial hyperparameter state captured at construction
assigns zero mean weights (one per input feature), bias equal to the
target mean when scaling is disabled and 0 when enabled, and unit
outputscale; it is the state of the model as initialized at construction
(captured once, by deep copy). -/
theorem C8_initState (X : List (List ℚ)) (y : List ℚ) (ln sd : Bool) :
    (mkGPEmul X y ln sd).initState.weights
      = List.replicate (mkGPEmul X y ln sd).nInFeatures 0 ∧
    (mkGPEmul X y ln sd).initState.bias = (if sd then 0 else listMean y) ∧
    (mkGPEmul X y ln sd).initState.outputscale = 1 ∧
    (mkGPEmul X y ln sd).initState = (mkGPEmul X y ln sd).model := by
  exact ⟨rfl, rfl, rfl, rfl⟩

/-- C9: the load path reconstructs the scaling state by refitting the
scaler on the reloaded training arrays, so loading from the identical
training data reproduces the fit-time scaling parameters of any emulator
fitted with scaling enabled. -/
theorem C9_loadRefitsScaler (X : List (List ℚ)) (y : List ℚ) (snapshot : ModelState)
    (wv : Bool) (Xv : List (List ℚ)) (yv : List ℚ)
    (mf : List ℚ → List ℚ → ℚ) (gp : List (List ℚ) → GPDist) (sq : ℚ → ℚ)
    (ln : Bool) :
    (loadEmulator X y snapshot wv Xv yv mf gp sq).1.scx = scalerFitN X ∧
    (loadEmulator X y snapshot wv Xv yv mf gp sq).1.scy = scalerFit1 y ∧
    (loadEmulator X y snapshot wv Xv yv mf gp sq).1.scx = (mkGPEmul X y ln true).scx ∧
    (loadEmulator X y snapshot wv Xv yv mf gp sq).1.scy = (mkGPEmul X y ln true).scy := by
  cases wv <;> exact ⟨rfl, rfl, rfl, rfl⟩

/-- C10: `load_emulator` always constructs the reconstructed emulator with
`scale_data=True` and `learn_noise=False`, regardless of the original
configuration; an emulator fitted with `scale_data=False` or
`learn_noise=True` is reloaded under a different configuration. -/
theorem C10_loadConfig (X : List (List ℚ)) (y : List ℚ) (snapshot : ModelState)
    (wv : Bool) (Xv : List (List ℚ)) (yv : List ℚ)
    (mf : List ℚ → List ℚ → ℚ) (gp : List (List ℚ) → GPDist) (sq : ℚ → ℚ) :
    (loadEmulator X y snapshot wv Xv yv mf gp sq).1.scaleData = true ∧
    (loadEmulator X y snapshot wv Xv yv mf gp sq).1.learnNoise = false ∧
    (∀ ln sd : Bool, sd = false ∨ ln = true →
      ((loadEmulator X y snapshot wv Xv yv mf gp sq).1.scaleData,
        (loadEmulator X y snapshot wv Xv yv mf gp sq).1.learnNoise)
        ≠ ((mkGPEmul X y ln sd).scaleData, (mkGPEmul X y ln sd).learnNoise)) := by
  have h1 : (loadEmulator X y snapshot wv Xv yv mf gp sq).1.scaleData = true := by
    cases wv <;> rfl
  have h2 : (loadEmulator X y snapshot wv Xv yv mf gp sq).1.learnNoise = false := by
    cases wv <;> rfl
  refine ⟨h1, h2, ?_⟩
  intro ln sd hor
  have hsd : (mkGPEmul X y ln sd).scaleData = sd := rfl
  have hln : (mkGPEmul X y ln sd).learnNoise = ln := rfl
  rw [h1, h2, hsd, hln]
  rcases hor with h | h <;> subst h <;> simp [Prod.ext_iff]

/-- Witness for C10 at a concrete load: an emulator originally fitted with
`learn_noise=True` is reloaded under a different configuration. -/
theorem C10_loadConfig_witness :
    ((loadEmulator sampleX sampleY sampleModel false [] [] (fun _ _ => 0)
        sampleGPOracle (fun q => q)).1.scaleData,
      (loadEmulator sampleX sampleY sampleModel false [] [] (fun _ _ => 0)
        sampleGPOracle (fun q => q)).1.learnNoise)
      ≠ ((mkGPEmul sampleX sampleY true true).scaleData,
         (mkGPEmul sampleX sampleY true true).learnNoise) :=
  (C10_loadConfig sampleX sampleY sampleModel false [] [] (fun _ _ => 0)
    sampleGPOracle (fun q => q)).2.2 true true (Or.inr rfl)
